import Mathlib

/-!
Verification development for the metamodel compiler in
`utils/model/gen_uml.py`.  The Python source is shallowly embedded:
schema records become Lean structures, the writer's output stream becomes
a list of structured lines, stderr diagnostics become a list of log
strings, and code that can raise becomes `Except String`.
-/

/-- Modelled from the spec (section 6): the override registry collaborator
(`utils/model/override.py` is outside the embedded sources).  It answers
`has_override(qualified_name)`, writes replacement text via
`write_override` (the replacement text itself is opaque, so an override
write is recorded as an `overrideLine`), and `derives(qualified_name)`
tells whether the registry marks the feature as a derived definition. -/
structure Overrides where
  has_override : String → Bool
  derives : String → Bool

/-- A structured value on the right-hand side of an emitted
`Class.feature = <descriptor>(...)` assignment. -/
inductive PVal where
  | attribute (name : String) (ty : String) (params : List (String × String))
  | enumeration (name : String) (lits : List String) (deflt : String)
  | association (name : String) (oppositeClass : String)
      (lower : Option String) (upper : Option String)
      (composite : Bool) (opposite : Option String)
  | derivedunion (name : String) (oppositeClass : String)
      (lower : String) (upper : String) (members : List String)
  | redefine (cls : String) (name : String) (oppositeClass : String)
      (redefines : String)
  deriving Repr, DecidableEq

/-- One element of the generated output stream. -/
inductive Line where
  | header
  | stereoNote (cls : String) (tag : String) (propagated : Bool)
  | simpleAttrNote (cls : String) (attr : String)
  | classdef (name : String) (parents : List String)
  | overrideLine (full : String)
  | prop (full : String) (v : PVal)
  deriving Repr, DecidableEq

/-- `Writer.write_property`: use the override when one exists, otherwise
emit the synthesized assignment. -/
def writeProperty (ov : Overrides) (full : String) (v : PVal) : Line :=
  if ov.has_override full then Line.overrideLine full else Line.prop full v

/-- A `Property` record used as a class attribute, as consumed by
`Writer.write_attribute`.  `isDerived` embeds the truthiness of
`ast.literal_eval(a.isDerived or "0")`. -/
structure Attr where
  class_name : String
  name : String
  typeValue : Option String
  defaultValue : Option String
  lowerValue : Option String
  upperValue : Option String
  isDerived : Bool
  deriving Repr, DecidableEq

/-- An enumeration entity: a `Class` whose name ends in the enumeration
suffix, with its literal tuple `enumerates`. -/
structure EnumEntity where
  name : String
  enumerates : List String
  deriving Repr, DecidableEq

def attrFullName (a : Attr) : String :=
  a.class_name ++ "." ++ a.name

/-- Python `str.lower`, restricted to the ASCII range the schema uses
(kernel-reducible, unlike `String.toLower`). -/
def pyLower (s : String) : String :=
  ⟨s.data.map Char.toLower⟩

/-- Python `str.title` on a single word, as applied to boolean default
literals. -/
def pyTitle (s : String) : String :=
  match (pyLower s).data with
  | [] => ⟨[]⟩
  | c :: cs => ⟨c.toUpper :: cs⟩

/-- Python `str.endswith` (kernel-reducible). -/
def strEndsWith (s suf : String) : Bool :=
  suf.data.isSuffixOf s.data

/-- The type-mapping table of `write_attribute`. -/
def mapType (t : String) : String :=
  if pyLower t = "boolean" then ("int")
  else if pyLower t = "integer" ∨ pyLower t = "unlimitednatural" then ("int")
  else if pyLower t = "string" then ("str")
  else t

/-- Default normalization of `write_attribute`: a truthy default reading
lower-case `true`/`false` is re-cased the Python way (`str.title`). -/
def normDefault : Option String → Option String
  | none => none
  | some s =>
    if s ≠ "" ∧ (pyLower s = "true" ∨ pyLower s = "false")
    then some (pyTitle s) else some s

/-- The `lower` parameter emitted by `write_attribute`: present only when
the declared lower bound is truthy and differs from `0`. -/
def lowerParam (a : Attr) : Option String :=
  match a.lowerValue with
  | some l => if l ≠ "" ∧ l ≠ "0" then some l else none
  | none => none

/-- The `upper` parameter emitted by `write_attribute`: the wildcard is
always present, any other bound only when truthy and different from `1`. -/
def upperParam (a : Attr) : Option String :=
  match a.upperValue with
  | some u => if u = "*" then some ("*")
              else if u ≠ "" ∧ u ≠ "1" then some u else none
  | none => none

/-- The ordered keyword-parameter list of an emitted attribute
descriptor (insertion order: default, lower, upper). -/
def attrParams (a : Attr) : List (String × String) :=
  (match normDefault a.defaultValue with
   | some d => [(("default" : String), d)]
   | none => []) ++
  (match lowerParam a with
   | some l => [(("lower" : String), l)]
   | none => []) ++
  (match upperParam a with
   | some u => [(("upper" : String), u)]
   | none => [])

def errNoType (a : Attr) : String :=
  "ERROR! type is not specified for property " ++ attrFullName a

def ignoreDerivedMsg (a : Attr) : String :=
  "ignoring derived attribute " ++ attrFullName a ++ ": no definition"

def indexErrorMsg : String :=
  "IndexError: list index out of range"

/-- The enumeration default: the declared (normalized) default when it is
truthy, else the first literal of the enumeration (absent first literal is
an unhandled `IndexError`). -/
def enumDefault (d : Option String) (lits : List String) : Except String String :=
  match d with
  | some s => if s ≠ "" then Except.ok s else
      (match lits with
       | [] => Except.error indexErrorMsg
       | l :: _ => Except.ok l)
  | none =>
      (match lits with
       | [] => Except.error indexErrorMsg
       | l :: _ => Except.ok l)

/-- `Writer.write_attribute`.  Returns the emitted output lines together
with the stderr diagnostics, or the fault that aborts generation.  The
control flow mirrors the source: the missing-type check fires before
anything else, then the override / derived / enumeration-suffix /
plain-attribute dispatch. -/
def writeAttribute (ov : Overrides) (a : Attr) (enums : List EnumEntity) :
    Except String (List Line × List String) :=
  match a.typeValue with
  | none => Except.error (errNoType a)
  | some ty0 =>
    let ty := mapType ty0
    let dflt := normDefault a.defaultValue
    let full := attrFullName a
    if ov.has_override full then
      Except.ok ([Line.overrideLine full], [])
    else if a.isDerived then
      Except.ok ([], [ignoreDerivedMsg a])
    else if strEndsWith ty ("Kind") || strEndsWith ty ("Sort") then
      match (enums.filter (fun e => e.name = ty)).head? with
      | none => Except.error indexErrorMsg
      | some e =>
        match enumDefault dflt e.enumerates with
        | Except.error m => Except.error m
        | Except.ok d =>
          Except.ok ([writeProperty ov full (PVal.enumeration a.name e.enumerates d)], [])
    else
      Except.ok ([writeProperty ov full (PVal.attribute a.name ty (attrParams a))], [])

/-- The multiplicity-defaulting rule of `parse_association_end`
(lines 342-345): an absent or empty upper bound becomes the wildcard, an
absent or empty lower bound defaults to the upper bound, and a wildcard
lower bound is then clamped to `0`. -/
def multPA (lv uv : Option String) : String × String :=
  let upper := match uv with
    | some u => if u = "" then ("*") else u
    | none => "*"
  let lower0 := match lv with
    | some l => if l = "" then upper else l
    | none => upper
  ((if lower0 = "*" then ("0") else lower0), upper)

/-- Modelled from the spec: the multiplicity an attribute declares, under
the attribute emitter's implicit defaults (lower absent means 0, upper
absent means 1). -/
def declaredMult (a : Attr) : String × String :=
  ((match a.lowerValue with
    | some l => if l = "" then ("0") else l
    | none => "0"),
   (match a.upperValue with
    | some u => if u = "" then ("1") else u
    | none => "1"))

/-- Modelled from the spec: re-parsing an emitted lower/upper parameter
pair with the attribute emitter's own implicit defaults. -/
def reparseAttr (lo up : Option String) : String × String :=
  (lo.getD ("0"), up.getD ("1"))

/-- The state threaded through `Writer.write_classdef`: the set of classes
whose `written` flag is set, and the output order of class-declaration
events (one entry per declaration written, synthesized or overridden). -/
structure CDState where
  written : List Nat
  order : List Nat
  deriving Repr, DecidableEq

/-- `Writer.write_classdef`: if the class is not yet written, first write
every generalization parent (in declared order), then the class's own
declaration; finally mark the class written.  The Python recursion is
unbounded, so the embedding carries fuel; a cyclic generalization graph
exhausts any fuel, matching the source's unbounded recursion. -/
def writeClassdef (par : Nat → List Nat) : Nat → Nat → CDState → Option CDState
  | 0, _, _ => none
  | fuel + 1, c, s =>
    if c ∈ s.written then some s
    else
      match (par c).foldlM (fun st p => writeClassdef par fuel p st) s with
      | none => none
      | some s1 => some ⟨c :: s1.written, s1.order ++ [c]⟩

/-- The class-definition loop of `generate`: `write_classdef` applied to
each class of the emission list in order. -/
def genClassdefs (par : Nat → List Nat) (fuel : Nat) (L : List Nat) : Option CDState :=
  L.foldlM (fun s c => writeClassdef par fuel c s) ⟨[], []⟩

/-- The depth-first stereotype propagation `tag_children` of `generate`:
the returned list is the sequence of classes visited (each visit assigns
the tag and writes one diagnostic line).  The source has no visited set
and no cycle guard; fuel bounds the embedded recursion. -/
def tagChildren (spec : Nat → List Nat) : Nat → Nat → List Nat
  | 0, _ => []
  | fuel + 1, me =>
    (spec me).foldr (fun child acc => child :: (tagChildren spec fuel child ++ acc)) []

/-- All nonempty directed specialization paths leaving `me` (a path is
recorded as its list of visited nodes, the last entry being the node the
path reaches), to the given depth. -/
def pathsFrom (spec : Nat → List Nat) : Nat → Nat → List (List Nat)
  | 0, _ => []
  | fuel + 1, me =>
    (spec me).foldr
      (fun child acc =>
        ([child] :: (pathsFrom spec fuel child).map (fun p => child :: p)) ++ acc) []

/-- A raw association end (`Property` record listed in an association's
`memberEnd`), before `parse_association_end` enriches it.  `typeId` and
`ownerId` are the raw `type` / `class_` references into the class table;
`subsets` and `redefines` carry the result of `parse_association_tags`
on the end's applied stereotypes. -/
structure AEnd where
  name : Option String
  typeId : Nat
  ownerId : Option Nat
  defaultValue : Option String
  lowerValue : Option String
  upperValue : Option String
  aggregation : Option String
  isDerived : Bool
  subsets : List String
  redefines : Option String
  deriving Repr, DecidableEq

/-- An association end after `parse_association_end`: the enrichment the
source stores back onto the navigable end (`class_name`,
`opposite_class_name`, `lower`, `upper`, `composite`, `derived`,
`subsets`, `redefines`), keeping the raw fields the simple-attribute fold
still reads. -/
structure PEnd where
  name : String
  class_name : String
  opposite_class_name : String
  typeId : Nat
  lower : String
  upper : String
  composite : Bool
  derived : Bool
  subsets : List String
  redefines : Option String
  defaultValue : Option String
  lowerValue : Option String
  upperValue : Option String
  deriving Repr, DecidableEq

/-- Python truthiness of an optional string. -/
def isTruthy : Option String → Bool
  | some s => s ≠ ""
  | none => false

def errNoEndName : String :=
  "ERROR! no name, but navigable"

/-- `parse_association_end` for one end; `ok none` is a non-navigable end
(the source returns early and leaves the end untouched), a navigable end
without a name is the fatal `ValueError`. -/
def parseEnd (cname : Nat → String) (e : AEnd) : Except String (Option PEnd) :=
  match e.ownerId with
  | none => Except.ok none
  | some owner =>
    match e.name with
    | none => Except.error errNoEndName
    | some nm =>
      let m := multPA e.lowerValue e.upperValue
      Except.ok (some
        { name := nm
          class_name := cname owner
          opposite_class_name := cname e.typeId
          typeId := e.typeId
          lower := m.1
          upper := m.2
          composite := e.aggregation = some ("composite")
          derived := e.isDerived
          subsets := e.subsets
          redefines := e.redefines
          defaultValue := e.defaultValue
          lowerValue := e.lowerValue
          upperValue := e.upperValue })

/-- An `Association` record: exactly two member ends. -/
structure Assoc where
  e1 : AEnd
  e2 : AEnd
  deriving Repr, DecidableEq

/-- A registered derived union: the registering end together with the
member list filled in by the subset-linking pass (each member carries the
`written` flag it had at the end of the association stage). -/
structure DUnion where
  dend : PEnd
  union : List (PEnd × Bool)
  deriving Repr, DecidableEq

/-- The class-table lookups `generate` performs on a raw end before
parsing (`end.type = classes[end["type"]]`, `end.class_ =
classes[end["class_"]]`); a reference outside the class table is an
uncaught `KeyError`. -/
def checkEnd (classIds : List Nat) (e : AEnd) : Except String Unit :=
  if e.typeId ∈ classIds then
    match e.ownerId with
    | some i => if i ∈ classIds then Except.ok () else Except.error ("KeyError: class_")
    | none => Except.ok ()
  else Except.error ("KeyError: type")

/-- Which end `a.asAttribute` settles on: the source loops over both ends
and keeps the last one whose resolved type is stereotyped
`SimpleAttribute` (`some false` is end 1, `some true` is end 2). -/
def simpleEnd (stereo : Nat → Option String) (a : Assoc) : Option Bool :=
  if stereo a.e2.typeId = some ("SimpleAttribute") then some true
  else if stereo a.e1.typeId = some ("SimpleAttribute") then some false
  else none

/-- `Writer.write_association` for a navigable head end (the head's
`written` guard is checked by the caller): the opposite reference is
included exactly when the tail end is navigable. -/
def writeAssociation (ov : Overrides) (head : PEnd) (tailP : Option PEnd) : Line :=
  writeProperty ov (head.class_name ++ "." ++ head.name)
    (PVal.association head.name head.opposite_class_name
      (if head.lower = "0" then none else some head.lower)
      (if head.upper = "*" then none else some head.upper)
      head.composite
      (tailP.map (fun t => t.name)))

def assertCollisionMsg (nm : String) : String :=
  "AssertionError: " ++ nm ++ " is already in derived union set"

/-- The per-end outcome of the association dispatch loop. -/
structure DispRes where
  lines : List Line
  logs : List String
  dunions : List (String × DUnion)
  redefs : List PEnd
  selfWritten : Bool
  otherWritten : Bool
  deriving Repr, DecidableEq

/-- One iteration of the dispatch loop in `generate` (head `pSelf`, tail
`pOther`).  When the association has an `asAttribute` end the whole
`elif` chain is skipped: only the designated end, and only when
navigable, is folded into a string attribute of the other end's type and
both ends are marked written.  Otherwise a navigable head goes, in
priority order, to redefines, to derived-union registration (the
assertion aborting on a feature-name collision), or to a plain navigable
association; a non-navigable head reads all tested attributes as `None`
and falls through every branch. -/
def dispatchEnd (ov : Overrides) (enums : List EnumEntity) (cname : Nat → String)
    (hasAs : Bool) (isAs : Bool) (pSelf pOther : Option PEnd) (otherTypeId : Nat)
    (selfWritten : Bool) (dunions : List (String × DUnion)) :
    Except String DispRes :=
  if hasAs then
    if isAs then
      match pSelf with
      | some pe =>
        let a : Attr :=
          { class_name := cname otherTypeId
            name := pe.name
            typeValue := some ("str")
            defaultValue := pe.defaultValue
            lowerValue := pe.lowerValue
            upperValue := pe.upperValue
            isDerived := pe.derived }
        match writeAttribute ov a enums with
        | Except.error m => Except.error m
        | Except.ok (ls, lg) =>
          Except.ok ⟨Line.simpleAttrNote (cname otherTypeId) pe.name :: ls, lg,
            dunions, [], true, true⟩
      | none => Except.ok ⟨[], [], dunions, [], selfWritten, false⟩
    else Except.ok ⟨[], [], dunions, [], selfWritten, false⟩
  else
    match pSelf with
    | none => Except.ok ⟨[], [], dunions, [], selfWritten, false⟩
    | some pe =>
      if isTruthy pe.redefines then
        Except.ok ⟨[], [], dunions, [pe], selfWritten, false⟩
      else if pe.derived || ov.derives (pe.class_name ++ "." ++ pe.name) then
        if dunions.any (fun kv => kv.1 = pe.name) then
          Except.error (assertCollisionMsg (pe.class_name ++ "." ++ pe.name))
        else
          Except.ok ⟨[], [], dunions ++ [(pe.name, ⟨pe, []⟩)], [], false, false⟩
      else
        if selfWritten then Except.ok ⟨[], [], dunions, [], selfWritten, false⟩
        else Except.ok ⟨[writeAssociation ov pe pOther], [], dunions, [], selfWritten, false⟩

/-- The result of processing one association. -/
structure AProc where
  lines : List Line
  logs : List String
  dunions : List (String × DUnion)
  redefs : List PEnd
  written1 : Bool
  written2 : Bool
  pends : List (PEnd × Bool)
  deriving Repr, DecidableEq

/-- Processing of one association in `generate`: resolve both ends'
class-table references, determine `asAttribute`, run
`parse_association_end` on both ends, then dispatch
`(e1, e2)` followed by `(e2, e1)`, threading the derived-union table and
the ends' `written` flags.  `pends` returns the parsed navigable ends
with their final `written` flags for the later subset-linking pass. -/
def processAssociation (ov : Overrides) (enums : List EnumEntity)
    (cname : Nat → String) (stereo : Nat → Option String) (classIds : List Nat)
    (dunions : List (String × DUnion)) (a : Assoc) : Except String AProc :=
  match checkEnd classIds a.e1 with
  | Except.error m => Except.error m
  | Except.ok _ =>
  match checkEnd classIds a.e2 with
  | Except.error m => Except.error m
  | Except.ok _ =>
  let asA := simpleEnd stereo a
  match parseEnd cname a.e1 with
  | Except.error m => Except.error m
  | Except.ok p1 =>
  match parseEnd cname a.e2 with
  | Except.error m => Except.error m
  | Except.ok p2 =>
  match dispatchEnd ov enums cname asA.isSome (asA = some false) p1 p2 a.e2.typeId
      false dunions with
  | Except.error m => Except.error m
  | Except.ok r1 =>
  match dispatchEnd ov enums cname asA.isSome (asA = some true) p2 p1 a.e1.typeId
      r1.otherWritten r1.dunions with
  | Except.error m => Except.error m
  | Except.ok r2 =>
    let w1 := r1.selfWritten || r2.otherWritten
    let w2 := r1.otherWritten || r2.selfWritten
    Except.ok
      { lines := r1.lines ++ r2.lines
        logs := r1.logs ++ r2.logs
        dunions := r2.dunions
        redefs := r1.redefs ++ r2.redefs
        written1 := w1
        written2 := w2
        pends := (match p1 with | some q => [(q, w1)] | none => []) ++
                 (match p2 with | some q => [(q, w2)] | none => []) }

def duFullName (d : DUnion) : String :=
  d.dend.class_name ++ "." ++ d.dend.name

def duWarnMsg (d : DUnion) : String :=
  "no subsets for derived union: " ++ duFullName d ++
    "[" ++ d.dend.lower ++ ".." ++ d.dend.upper ++ "]"

def typeErrorMsg : String :=
  "TypeError: NoneType object is not iterable"

def cycleMsg : String :=
  "unbounded recursion"

/-- `Writer.write_derivedunion`.  Members that are derived and not yet
written are recursively written first (looked up by feature name in the
derived-union table; a derived member that was never registered has no
`union` attribute in the source, an uncaught `TypeError`).  A union with
no members is still emitted, with a warning unless an override exists;
there is no entry guard, so a second call on the same union emits again.
The returned triple is (lines, logs, updated written-name set). -/
def writeDU (ov : Overrides) (dtab : List (String × DUnion)) :
    Nat → DUnion → List String → Except String (List Line × List String × List String)
  | 0, _, _ => Except.error cycleMsg
  | fuel + 1, d, written0 =>
    match d.union.foldlM
      (fun (acc : List Line × List String × List String) (m : PEnd × Bool) =>
        if m.1.derived && !(m.2 || acc.2.2.contains m.1.name) then
          match dtab.find? (fun kv => kv.1 = m.1.name) with
          | some kv =>
            match writeDU ov dtab fuel kv.2 acc.2.2 with
            | Except.error e => Except.error e
            | Except.ok (ls2, lg2, wr2) =>
              Except.ok (acc.1 ++ ls2, acc.2.1 ++ lg2, wr2)
          | none => Except.error typeErrorMsg
        else Except.ok acc)
      ([], [], written0) with
    | Except.error e => Except.error e
    | Except.ok (ls, lg, wr) =>
      let subs := d.union.map (fun m => m.1.class_name ++ "." ++ m.1.name)
      let full := duFullName d
      if subs.isEmpty then
        let warn := if ov.has_override full then [] else [duWarnMsg d]
        Except.ok
          (ls ++ [writeProperty ov full
            (PVal.derivedunion d.dend.name d.dend.opposite_class_name
              d.dend.lower d.dend.upper [])],
           lg ++ warn, d.dend.name :: wr)
      else
        Except.ok
          (ls ++ [writeProperty ov full
            (PVal.derivedunion d.dend.name d.dend.opposite_class_name
              d.dend.lower d.dend.upper subs)],
           lg, d.dend.name :: wr)

/-- A class-owned attribute record before the attribute stage assigns
`class_name` (`isAssociation` is the truthiness of `a.get("association")`). -/
structure OwnedAttr where
  name : String
  typeValue : Option String
  defaultValue : Option String
  lowerValue : Option String
  upperValue : Option String
  isDerived : Bool
  isAssociation : Bool
  deriving Repr, DecidableEq

def OwnedAttr.toAttr (o : OwnedAttr) (cls : String) : Attr :=
  { class_name := cls
    name := o.name
    typeValue := o.typeValue
    defaultValue := o.defaultValue
    lowerValue := o.lowerValue
    upperValue := o.upperValue
    isDerived := o.isDerived }

/-- The classified schema as `generate` sees it after the element
classifier, the generalization linking, the enumeration-value collection
and the metaclass removal: the class table (by id), the per-class derived
bookkeeping, the enumeration and association tables. -/
structure GModel where
  classIds : List Nat
  cname : Nat → String
  parents : Nat → List Nat
  children : Nat → List Nat
  applied : Nat → Option String
  ownedAttrs : Nat → List OwnedAttr
  ownedOps : Nat → List String
  enums : List EnumEntity
  assocs : List Assoc

/-- The stereotype-tagging stage of `generate`: each class with an
applied stereotype is tagged and the tag is propagated depth-first to
every specialization, one diagnostic comment per assignment; the final
tag assignment is returned alongside the emitted comment lines. -/
def stereoStage (g : GModel) (fuel : Nat) : List Line × (Nat → Option String) :=
  g.classIds.foldl
    (fun (acc : List Line × (Nat → Option String)) c =>
      match g.applied c with
      | none => acc
      | some s =>
        let visits := tagChildren g.children fuel c
        (acc.1 ++ (Line.stereoNote (g.cname c) s false ::
            visits.map (fun v => Line.stereoNote (g.cname v) s true)),
         fun m => if m = c ∨ m ∈ visits then some s else acc.2 m))
    ([], fun _ => none)

/-- The declaration line `write_classdef` emits for one class: the
override text when the registry has a class-level override, otherwise the
synthesized definition listing the generalization parents. -/
def classdefLine (ov : Overrides) (g : GModel) (c : Nat) : Line :=
  if ov.has_override (g.cname c) then Line.overrideLine (g.cname c)
  else Line.classdef (g.cname c) ((g.parents c).map g.cname)

/-- The class-definition stage of `generate`: classes stereotyped
`SimpleAttribute` are collected as ignored, every other class goes
through `write_classdef`.  Returns (lines, ignored ids, emission order). -/
def classdefStage (ov : Overrides) (g : GModel) (stereo : Nat → Option String)
    (fuel : Nat) : Option (List Line × List Nat × List Nat) :=
  match genClassdefs g.parents fuel
      (g.classIds.filter (fun c => ¬ stereo c = some ("SimpleAttribute"))) with
  | none => none
  | some s =>
    some (s.order.map (fun c => classdefLine ov g c),
      g.classIds.filter (fun c => stereo c = some ("SimpleAttribute")), s.order)

/-- One owned attribute in the attribute stage of `generate`: an
association member is skipped, a registry-derived attribute is deferred
into the derived-attribute dict (keyed by the bare attribute name,
Python-dict upsert semantics), anything else goes through
`write_attribute`. -/
def attrStep (ov : Overrides) (enums : List EnumEntity) (cls : String)
    (acc : List Line × List String × List (String × Attr)) (o : OwnedAttr) :
    Except String (List Line × List String × List (String × Attr)) :=
  if o.isAssociation then Except.ok acc
  else
    let a := o.toAttr cls
    if ov.derives (attrFullName a) then
      Except.ok (acc.1, acc.2.1,
        if acc.2.2.any (fun kv => kv.1 = o.name) then
          acc.2.2.map (fun kv => if kv.1 = o.name then (o.name, a) else kv)
        else acc.2.2 ++ [(o.name, a)])
    else
      match writeAttribute ov a enums with
      | Except.error m => Except.error m
      | Except.ok (ls, lg) => Except.ok (acc.1 ++ ls, acc.2.1 ++ lg, acc.2.2)

/-- The attribute stage of `generate`: `attrStep` over every owned
attribute of every non-ignored class. -/
def attrStage (ov : Overrides) (g : GModel) (ignored : List Nat) :
    Except String (List Line × List String × List (String × Attr)) :=
  (g.classIds.filter (fun c => c ∉ ignored)).foldlM
    (fun acc c => (g.ownedAttrs c).foldlM (attrStep ov g.enums (g.cname c)) acc)
    ([], [], [])

/-- The association stage of `generate`: `processAssociation` over every
association in order, threading the derived-union table and collecting
lines, logs, redefines and the parsed ends. -/
def assocStep (ov : Overrides) (g : GModel) (stereo : Nat → Option String)
    (acc : List Line × List String × List (String × DUnion) ×
      List PEnd × List (PEnd × Bool)) (a : Assoc) :
    Except String (List Line × List String × List (String × DUnion) ×
      List PEnd × List (PEnd × Bool)) :=
  match processAssociation ov g.enums g.cname stereo g.classIds acc.2.2.1 a with
  | Except.error m => Except.error m
  | Except.ok r =>
    Except.ok (acc.1 ++ r.lines, acc.2.1 ++ r.logs, r.dunions,
      acc.2.2.2.1 ++ r.redefs, acc.2.2.2.2 ++ r.pends)

def assocStage (ov : Overrides) (g : GModel) (stereo : Nat → Option String) :
    Except String (List Line × List String × List (String × DUnion) ×
      List PEnd × List (PEnd × Bool)) :=
  g.assocs.foldlM (assocStep ov g stereo) ([], [], [], [], [])

def notADUMsg (cls s : String) : String :=
  "not a derived union: " ++ cls ++ "." ++ s

/-- The subset-linking pass of `generate`: every parsed end carrying a
nonempty subset list contributes itself to each named union, unless its
type is an ignored (simple-attribute) class; a subset name with no
registered union is logged and skipped. -/
def linkStage (stereo : Nat → Option String) (dunions : List (String × DUnion))
    (pends : List (PEnd × Bool)) : List (String × DUnion) × List String :=
  pends.foldl
    (fun acc pw =>
      if pw.1.subsets.isEmpty then acc
      else
        pw.1.subsets.foldl
          (fun (acc2 : List (String × DUnion) × List String) s =>
            if stereo pw.1.typeId = some ("SimpleAttribute") then acc2
            else if acc2.1.any (fun kv => kv.1 = s) then
              (acc2.1.map (fun kv =>
                if kv.1 = s then (kv.1, ⟨kv.2.dend, kv.2.union ++ [pw]⟩) else kv),
               acc2.2)
            else (acc2.1, acc2.2 ++ [notADUMsg pw.1.class_name s]))
          acc)
    (dunions, [])

/-- The deferred derived-attribute pass: `write_attribute` on each
deferred record, with the default empty enumeration table. -/
def derivedAttrStep (ov : Overrides) (acc : List Line × List String)
    (kv : String × Attr) : Except String (List Line × List String) :=
  match writeAttribute ov kv.2 [] with
  | Except.error m => Except.error m
  | Except.ok (ls, lg) => Except.ok (acc.1 ++ ls, acc.2 ++ lg)

def derivedAttrStage (ov : Overrides) (deferred : List (String × Attr)) :
    Except String (List Line × List String) :=
  deferred.foldlM (derivedAttrStep ov) ([], [])

/-- The derived-union emission pass: `write_derivedunion` on every
registered union in registration order (no entry guard), threading the
written-name set. -/
def duStep (ov : Overrides) (dunions : List (String × DUnion)) (fuel : Nat)
    (acc : List Line × List String × List String) (kv : String × DUnion) :
    Except String (List Line × List String × List String) :=
  match writeDU ov dunions fuel kv.2 acc.2.2 with
  | Except.error m => Except.error m
  | Except.ok (ls, lg, wr) => Except.ok (acc.1 ++ ls, acc.2.1 ++ lg, wr)

def duStage (ov : Overrides) (dunions : List (String × DUnion)) (fuel : Nat) :
    Except String (List Line × List String) :=
  match dunions.foldlM (duStep ov dunions fuel) ([], [], []) with
  | Except.error m => Except.error m
  | Except.ok (ls, lg, _) => Except.ok (ls, lg)

def redefLogMsg (r : PEnd) : String :=
  "redefining " ++ r.redefines.getD ("") ++ " -> " ++ r.class_name ++ "." ++ r.name

/-- The redefine pass: one log line and one `redefine` descriptor per
collected end. -/
def redefStage (ov : Overrides) (redefs : List PEnd) : List Line × List String :=
  redefs.foldl
    (fun (acc : List Line × List String) r =>
      (acc.1 ++ [writeProperty ov (r.class_name ++ "." ++ r.name)
        (PVal.redefine r.class_name r.name r.opposite_class_name
          (r.redefines.getD ("")))],
       acc.2 ++ [redefLogMsg r]))
    ([], [])

def noOpOverrideMsg (full : String) : String :=
  "No override for operation " ++ full

/-- The operation pass: an override line when the registry has one,
otherwise only a diagnostic. -/
def opStage (ov : Overrides) (g : GModel) (ignored : List Nat) :
    List Line × List String :=
  (g.classIds.filter (fun c => c ∉ ignored)).foldl
    (fun acc c =>
      (g.ownedOps c).foldl
        (fun (acc2 : List Line × List String) onm =>
          let full := g.cname c ++ "." ++ onm
          if ov.has_override full then (acc2.1 ++ [Line.overrideLine full], acc2.2)
          else (acc2.1, acc2.2 ++ [noOpOverrideMsg full]))
        acc)
    ([], [])

/-- `generate` from the classified schema on: header, stereotype
tagging, class definitions, attributes, associations, subset linking,
the deferred derived-attribute pass, derived unions, redefines,
operations — appended to one output stream in this order. -/
def generateModel (ov : Overrides) (g : GModel) (fuel : Nat) :
    Except String (List Line × List String) :=
  let st := stereoStage g fuel
  match classdefStage ov g st.2 fuel with
  | none => Except.error cycleMsg
  | some (cdLines, ignored, _) =>
  match attrStage ov g ignored with
  | Except.error m => Except.error m
  | Except.ok (aLines, aLogs, deferred) =>
  match assocStage ov g st.2 with
  | Except.error m => Except.error m
  | Except.ok (asLines, asLogs, duns, redefs, pends) =>
  let lk := linkStage st.2 duns pends
  match derivedAttrStage ov deferred with
  | Except.error m => Except.error m
  | Except.ok (daLines, daLogs) =>
  match duStage ov lk.1 fuel with
  | Except.error m => Except.error m
  | Except.ok (duLines, duLogs) =>
  let rd := redefStage ov redefs
  let op := opStage ov g ignored
  Except.ok
    (Line.header :: st.1 ++ cdLines ++ aLines ++ asLines ++ daLines ++
       duLines ++ rd.1 ++ op.1,
     aLogs ++ asLogs ++ lk.2 ++ daLogs ++ duLogs ++ rd.2 ++ op.2)

/-- Whether an `Except`-valued computation aborts with an uncaught fault. -/
def abortsB {α : Type} : Except String α → Bool
  | Except.error _ => true
  | Except.ok _ => false

/-- C10: the missing-type check of `write_attribute` fires before the
override registry is consulted: whatever the registry answers, a
type-less attribute is a fatal `ValueError`. -/
theorem writeAttribute_none_type_fatal (ov : Overrides) (a : Attr)
    (enums : List EnumEntity) (h : a.typeValue = none) :
    writeAttribute ov a enums = Except.error (errNoType a) := by
  unfold writeAttribute
  rw [h]

def aC10 : Attr := ⟨"Foo", "bar", none, none, none, none, false⟩

def ovC10 : Overrides := ⟨fun _ => true, fun _ => false⟩

/-- C10 witness: a concrete type-less attribute aborts generation even
though the registry holds an override for its qualified name. -/
theorem writeAttribute_none_type_fatal_witness :
    ovC10.has_override (attrFullName aC10) = true ∧
      writeAttribute ovC10 aC10 [] = Except.error (errNoType aC10) :=
  ⟨rfl, writeAttribute_none_type_fatal ovC10 aC10 [] rfl⟩

def a9cex : Attr := ⟨"C", "x", some ("int"), none, some ("0"), some ("5"), false⟩

/-- C9 counterexample: for the attribute `C.x` declared with lower bound
`0` and upper bound `5`, the emitted descriptor omits the lower parameter
and re-parsing the emitted pair under the claimed rule (lower defaults to
upper when absent, then clamped to 0 on a wildcard upper) yields `5..5`,
not the declared `0..5` — whichever way the declared multiplicity is
normalized. -/
theorem multPA_roundtrip_cex :
    multPA (lowerParam a9cex) (upperParam a9cex) = (("5"), ("5")) ∧
      declaredMult a9cex = (("0"), ("5")) ∧
      multPA a9cex.lowerValue a9cex.upperValue = (("0"), ("5")) ∧
      multPA (lowerParam a9cex) (upperParam a9cex) ≠ declaredMult a9cex ∧
      multPA (lowerParam a9cex) (upperParam a9cex) ≠
        multPA a9cex.lowerValue a9cex.upperValue := by
  refine ⟨rfl, rfl, rfl, ?_, ?_⟩ <;> decide

/-- C9 amended: re-parsing the emitted lower/upper parameter pair with
the attribute emitter's own implicit defaults (absent lower means 0,
absent upper means 1) reproduces the attribute's declared multiplicity
exactly. -/
theorem reparseAttr_roundtrip (a : Attr) :
    reparseAttr (lowerParam a) (upperParam a) = declaredMult a := by
  unfold reparseAttr lowerParam upperParam declaredMult
  cases hl : a.lowerValue <;> cases hu : a.upperValue <;>
    simp only [Option.getD] <;> split_ifs <;> simp_all

instance {ε α : Type} [DecidableEq ε] [DecidableEq α] : DecidableEq (Except ε α) :=
  fun x y =>
    match x, y with
    | Except.ok a, Except.ok b =>
      if h : a = b then isTrue (by rw [h])
      else isFalse (fun hc => h (Except.ok.inj hc))
    | Except.error a, Except.error b =>
      if h : a = b then isTrue (by rw [h])
      else isFalse (fun hc => h (Except.error.inj hc))
    | Except.ok _, Except.error _ => isFalse (fun hc => Except.noConfusion hc)
    | Except.error _, Except.ok _ => isFalse (fun hc => Except.noConfusion hc)

def linesOf {β γ : Type} : Except String (List Line × β × γ) → List Line
  | Except.ok r => r.1
  | Except.error _ => []

def warningsOf {γ : Type} : Except String (List Line × List String × γ) → List String
  | Except.ok r => r.2.1
  | Except.error _ => []

def isDULineB : Line → Bool
  | Line.prop _ (PVal.derivedunion _ _ _ _ _) => true
  | _ => false

def isAssocLineB : Line → Bool
  | Line.prop _ (PVal.association _ _ _ _ _ _) => true
  | _ => false

def isAttrLineB : Line → Bool
  | Line.prop _ (PVal.attribute _ _ _) => true
  | Line.prop _ (PVal.enumeration _ _ _) => true
  | _ => false

def isRedefLineB : Line → Bool
  | Line.prop _ (PVal.redefine _ _ _ _) => true
  | _ => false

def ovE : Overrides := ⟨fun _ => false, fun _ => false⟩

def aC6 : Attr := ⟨"C", "k", some ("ColorKind"), none, none, none, false⟩

def enumsC6 : List EnumEntity :=
  [⟨"ColorKind", ["red", "green"]⟩, ⟨"ColorKind", ["blue"]⟩]

/-- C6 counterexample: the type `ColorKind` matches two enumeration
entities, yet `write_attribute` does not abort — it indexes the first
match and emits a descriptor from its literal tuple, refuting the claim
that more than one match is fatal. -/
theorem writeAttribute_multi_enum_no_abort :
    (enumsC6.filter (fun e => e.name = mapType ("ColorKind"))).length = 2 ∧
      abortsB (writeAttribute ovE aC6 enumsC6) = false ∧
      writeAttribute ovE aC6 enumsC6 =
        Except.ok ([Line.prop (attrFullName aC6)
          (PVal.enumeration aC6.name (["red", "green"]) (("red")))], []) := by
  refine ⟨?_, ?_, ?_⟩ <;> decide

/-- C6 amended: enumeration-type resolution is fatal only in the
zero-match case; with one or more matching enumeration entities the first
match (in table order) is used and a descriptor is emitted from its
literal tuple with the declared default or its first literal. -/
theorem writeAttribute_enum_resolution (ov : Overrides) (a : Attr)
    (enums : List EnumEntity) (ty0 : String) (hty : a.typeValue = some ty0)
    (hsuf : (strEndsWith (mapType ty0) ("Kind") || strEndsWith (mapType ty0) ("Sort")) = true)
    (hov : ov.has_override (attrFullName a) = false)
    (hder : a.isDerived = false) :
    (enums.filter (fun e => e.name = mapType ty0) = [] →
      writeAttribute ov a enums = Except.error indexErrorMsg) ∧
    (∀ e rest, enums.filter (fun e => e.name = mapType ty0) = e :: rest →
      ∀ d, enumDefault (normDefault a.defaultValue) e.enumerates = Except.ok d →
        writeAttribute ov a enums =
          Except.ok ([Line.prop (attrFullName a)
            (PVal.enumeration a.name e.enumerates d)], [])) := by
  constructor
  · intro hnil
    unfold writeAttribute
    rw [hty]
    simp only [hov, hder, hsuf, if_true, if_false, Bool.false_eq_true, hnil,
      List.head?_nil]
  · intro e rest hfilter d hd
    unfold writeAttribute
    rw [hty]
    simp only [hov, hder, hsuf, if_true, if_false, Bool.false_eq_true, hfilter,
      List.head?_cons, hd, writeProperty]

/-- C8 amended: each call of `write_derivedunion` on a derived union with
an empty member list and no override for its qualified name does not
abort; it emits exactly one `derivedunion` descriptor with zero members
and exactly one warning log line, and marks the union written. -/
theorem writeDU_empty_union (ov : Overrides) (dtab : List (String × DUnion))
    (fuel : Nat) (d : DUnion) (w : List String) (hu : d.union = [])
    (hov : ov.has_override (duFullName d) = false) :
    writeDU ov dtab (fuel + 1) d w =
      Except.ok ([Line.prop (duFullName d)
        (PVal.derivedunion d.dend.name d.dend.opposite_class_name
          d.dend.lower d.dend.upper [])],
        [duWarnMsg d], d.dend.name :: w) := by
  unfold writeDU
  rw [hu]
  simp only [List.foldlM, writeProperty, hov, Bool.false_eq_true, if_false,
    List.map_nil, List.isEmpty_nil, if_true, pure, Except.pure,
    List.nil_append]

def dC8 : DUnion :=
  ⟨⟨"u", "C", "D", 0, "0", "*", false, true, [], none, none, none, none⟩, []⟩

/-- C8 witness: a concrete empty derived union without an override emits
one zero-member descriptor and one warning. -/
theorem writeDU_empty_union_witness :
    writeDU ovE [] 1 dC8 [] =
      Except.ok ([Line.prop (duFullName dC8)
        (PVal.derivedunion dC8.dend.name dC8.dend.opposite_class_name
          dC8.dend.lower dC8.dend.upper [])],
        [duWarnMsg dC8], dC8.dend.name :: []) :=
  writeDU_empty_union ovE [] 0 dC8 [] rfl rfl

/-- C8 counterexample: when an override is registered for the empty
union's qualified name, `write_derivedunion` emits the override text
instead of a zero-member descriptor and produces no warning at all,
refuting the unconditional "exactly one descriptor and exactly one
warning". -/
theorem writeDU_empty_union_override_cex :
    dC8.union = [] ∧
      (warningsOf (writeDU ovC10 [] 1 dC8 [])).length = 0 ∧
      (linesOf (writeDU ovC10 [] 1 dC8 [])).all (fun l => !(isDULineB l)) = true ∧
      writeDU ovC10 [] 1 dC8 [] =
        Except.ok ([Line.overrideLine (duFullName dC8)], [], [dC8.dend.name]) := by
  refine ⟨rfl, ?_, ?_, ?_⟩ <;> decide

/-- A property preserved by each `Except`-step of a fold is preserved by
the whole fold. -/
theorem foldlM_preserve {α β : Type} (f : β → α → Except String β) (P : β → Prop)
    (hf : ∀ b a r, P b → f b a = Except.ok r → P r) :
    ∀ (l : List α) (b r : β), P b → l.foldlM f b = Except.ok r → P r := by
  intro l
  induction l with
  | nil =>
    intro b r hP h
    simp only [List.foldlM_nil] at h
    cases h
    exact hP
  | cons a t ih =>
    intro b r hP h
    rw [List.foldlM_cons] at h
    cases hfa : f b a with
    | error e =>
      rw [hfa] at h
      simp only [bind, Except.bind] at h
      exact Except.noConfusion h
    | ok b2 =>
      rw [hfa] at h
      simp only [bind, Except.bind] at h
      exact ih b2 r (hf b a b2 hP hfa) h

/-- `attrStep` only ever defers an attribute the override registry
derives. -/
theorem attrStep_deferred_derives (ov : Overrides) (enums : List EnumEntity)
    (cls : String) (acc : List Line × List String × List (String × Attr))
    (o : OwnedAttr) (res : List Line × List String × List (String × Attr))
    (hacc : ∀ kv ∈ acc.2.2, ov.derives (attrFullName kv.2) = true)
    (h : attrStep ov enums cls acc o = Except.ok res) :
    ∀ kv ∈ res.2.2, ov.derives (attrFullName kv.2) = true := by
  unfold attrStep at h
  by_cases ha : o.isAssociation
  · simp only [ha, if_true] at h
    cases h
    exact hacc
  · simp only [ha, if_false, Bool.false_eq_true] at h
    by_cases hder : ov.derives (attrFullName (o.toAttr cls)) = true
    · simp only [hder, if_true] at h
      cases h
      intro kv hkv
      by_cases hany : acc.2.2.any (fun kv => kv.1 = o.name)
      · simp only [hany, if_true] at hkv
        obtain ⟨kv2, hkv2, hmap⟩ := List.mem_map.mp hkv
        by_cases he : kv2.1 = o.name
        · simp only [he, if_true] at hmap
          rw [← hmap]
          exact hder
        · simp only [he, if_false] at hmap
          rw [← hmap]
          exact hacc kv2 hkv2
      · simp only [hany, if_false, Bool.false_eq_true] at hkv
        rcases List.mem_append.mp hkv with hin | hs
        · exact hacc kv hin
        · rcases List.mem_singleton.mp hs with rfl
          exact hder
    · simp only [Bool.not_eq_true] at hder
      simp only [hder, Bool.false_eq_true, if_false] at h
      cases hw : writeAttribute ov (o.toAttr cls) enums with
      | error m =>
        rw [hw] at h
        cases h
      | ok p =>
        rw [hw] at h
        cases p with
        | mk ls lg =>
          cases h
          exact hacc

/-- The deferred derived-attribute dict built by the attribute stage
contains only attributes the override registry derives. -/
theorem attrStage_deferred_derives (ov : Overrides) (g : GModel)
    (ignored : List Nat) (res : List Line × List String × List (String × Attr))
    (h : attrStage ov g ignored = Except.ok res) :
    ∀ kv ∈ res.2.2, ov.derives (attrFullName kv.2) = true := by
  refine foldlM_preserve _ (fun x => ∀ kv ∈ x.2.2, ov.derives (attrFullName kv.2) = true)
    ?_ _ _ _ (by intro kv hkv; cases hkv) h
  intro b c r hb hstep
  exact foldlM_preserve _ _ (fun b2 o r2 hb2 h2 =>
    attrStep_deferred_derives ov g.enums (g.cname c) b2 o r2 hb2 h2) _ b r hb hstep

/-- C2 amended: a derived attribute with no override is logged by
`write_attribute` with the "ignoring derived attribute" diagnostic and
emits nothing — it is skipped entirely, not deferred; the deferred
second pass only ever holds attributes the override registry itself
marks as derived. -/
theorem derived_attr_no_override_skipped (ov : Overrides) (a : Attr)
    (enums : List EnumEntity) (g : GModel) (ignored : List Nat) (ty0 : String)
    (hty : a.typeValue = some ty0) (hd : a.isDerived = true)
    (hov : ov.has_override (attrFullName a) = false) :
    writeAttribute ov a enums = Except.ok ([], [ignoreDerivedMsg a]) ∧
      (∀ res, attrStage ov g ignored = Except.ok res →
        ∀ kv ∈ res.2.2, ov.derives (attrFullName kv.2) = true) := by
  constructor
  · unfold writeAttribute
    rw [hty]
    simp only [hov, Bool.false_eq_true, if_false, hd, if_true]
  · intro res h
    exact attrStage_deferred_derives ov g ignored res h

def oa2 : OwnedAttr := ⟨"x", some ("str"), none, none, none, true, false⟩

def g2 : GModel :=
  { classIds := [0]
    cname := fun _ => "C"
    parents := fun _ => []
    children := fun _ => []
    applied := fun _ => none
    ownedAttrs := fun _ => [oa2]
    ownedOps := fun _ => []
    enums := []
    assocs := [] }

/-- C2 witness: the concrete derived attribute `C.x` with the empty
override registry is logged and skipped. -/
theorem derived_attr_no_override_skipped_witness :
    writeAttribute ovE (oa2.toAttr ("C")) [] =
        Except.ok ([], [ignoreDerivedMsg (oa2.toAttr ("C"))]) ∧
      (∀ res, attrStage ovE g2 [] = Except.ok res →
        ∀ kv ∈ res.2.2, ovE.derives (attrFullName kv.2) = true) :=
  derived_attr_no_override_skipped ovE (oa2.toAttr ("C")) [] g2 [] ("str")
    rfl rfl rfl

/-- C2 counterexample: running the attribute stage on a model whose only
attribute is derived with no override produces no output line for it and
an empty deferred dict, and the deferred second pass then emits nothing —
the attribute is not "recorded and emitted in the deferred pass". -/
theorem attrStage_derived_no_override_cex :
    oa2.isDerived = true ∧
      ovE.has_override (attrFullName (oa2.toAttr ("C"))) = false ∧
      ovE.derives (attrFullName (oa2.toAttr ("C"))) = false ∧
      attrStage ovE g2 [] =
        Except.ok ([], [ignoreDerivedMsg (oa2.toAttr ("C"))], []) ∧
      derivedAttrStage ovE [] = Except.ok ([], []) := by
  refine ⟨rfl, rfl, rfl, ?_, rfl⟩
  decide

/-- Whether a path ends at class `d`. -/
def endsAt (d : Nat) (p : List Nat) : Bool :=
  decide (p.getLast? = some d)

theorem foldr_append_mem {α β : Type} (f : β → List α) (l : List β) (x : α) :
    (x ∈ l.foldr (fun b acc => f b ++ acc) []) ↔ ∃ b ∈ l, x ∈ f b := by
  induction l with
  | nil => simp
  | cons b t ih => simp [ih]

theorem foldr_append_count {α β : Type} [DecidableEq α] (f : β → List α)
    (l : List β) (d : α) :
    (l.foldr (fun b acc => f b ++ acc) []).count d =
      (l.map (fun b => (f b).count d)).sum := by
  induction l with
  | nil => simp
  | cons b t ih => simp [List.count_append, ih]

theorem foldr_append_filter_length {α β : Type} (f : β → List α) (P : α → Bool)
    (l : List β) :
    ((l.foldr (fun b acc => f b ++ acc) []).filter P).length =
      (l.map (fun b => ((f b).filter P).length)).sum := by
  induction l with
  | nil => simp
  | cons b t ih => simp [List.filter_append, ih]

/-- Every recorded specialization path is nonempty. -/
theorem pathsFrom_ne_nil (spec : Nat → List Nat) :
    ∀ (fuel c : Nat) (p : List Nat), p ∈ pathsFrom spec fuel c → p ≠ [] := by
  intro fuel
  induction fuel with
  | zero =>
    intro c p hp
    simp [pathsFrom] at hp
  | succ n ih =>
    intro c p hp
    have hp2 : p ∈ (spec c).foldr
        (fun child acc =>
          ([child] :: (pathsFrom spec n child).map (fun q => child :: q)) ++ acc)
        [] := hp
    rw [foldr_append_mem] at hp2
    obtain ⟨ch, _, hmem⟩ := hp2
    rcases List.mem_cons.mp hmem with rfl | hmap
    · simp
    · obtain ⟨q, _, rfl⟩ := List.mem_map.mp hmap
      simp

/-- C3 amended: depth-first stereotype propagation visits (and re-tags) a
descendant once per distinct specialization path from the tagged class: the
number of times `tag_children` visits `d` equals the number of recorded
paths ending at `d`.  In particular a class reachable along several paths
of a DAG is tagged once per path, not once. -/
theorem tagChildren_count_eq_paths (spec : Nat → List Nat) (fuel : Nat)
    (c d : Nat) :
    (tagChildren spec fuel c).count d =
      ((pathsFrom spec fuel c).filter (endsAt d)).length := by
  induction fuel generalizing c with
  | zero => simp [tagChildren, pathsFrom]
  | succ n ih =>
    have htag : tagChildren spec (n + 1) c =
        (spec c).foldr (fun child acc => (child :: tagChildren spec n child) ++ acc) [] :=
      rfl
    have hpath : pathsFrom spec (n + 1) c =
        (spec c).foldr
          (fun child acc =>
            ([child] :: (pathsFrom spec n child).map (fun q => child :: q)) ++ acc)
          [] := rfl
    rw [htag, hpath, foldr_append_count, foldr_append_filter_length]
    refine congrArg List.sum (List.map_congr_left ?_)
    intro ch _
    rw [List.count_cons, List.filter_cons]
    have hfm : ((pathsFrom spec n ch).map (fun q => ch :: q)).filter (endsAt d) =
        ((pathsFrom spec n ch).filter (fun q => endsAt d (ch :: q))).map
          (fun q => ch :: q) := by
      rw [List.filter_map]
      rfl
    have hcongr : (pathsFrom spec n ch).filter (fun q => endsAt d (ch :: q)) =
        (pathsFrom spec n ch).filter (endsAt d) := by
      refine List.filter_congr ?_
      intro q hq
      have hne := pathsFrom_ne_nil spec n ch q hq
      cases q with
      | nil => exact absurd rfl hne
      | cons x xs =>
        simp [endsAt, List.getLast?_cons_cons]
    rw [hfm, hcongr, apply_ite List.length]
    simp only [List.length_cons, List.length_map, ih]
    by_cases hch : ch = d
    · subst hch
      have h1 : endsAt ch [ch] = true := by simp [endsAt]
      simp [h1]
    · have h1 : endsAt d [ch] = false := by simp [endsAt, hch]
      have h2 : (ch == d) = false := by simp [hch]
      have h3 : (d == ch) = false := by simp [Ne.symm hch]
      simp only [h1, h2, h3, Bool.false_eq_true, if_false]
      omega

def specC3 : Nat → List Nat := fun n =>
  if n = 0 then [1, 2] else if n = 1 then [3] else if n = 2 then [3] else []

/-- C3 counterexample: in the diamond `0 → 1 → 3`, `0 → 2 → 3` the
propagation visits (and tags) class 3 twice — once per path — refuting
"each descendant is visited and tagged a single time". -/
theorem tagChildren_diamond_cex :
    tagChildren specC3 3 0 = [1, 3, 2, 3] ∧
      (tagChildren specC3 3 0).count 3 = 2 ∧
      ¬ (tagChildren specC3 3 0).count 3 = 1 := by
  refine ⟨?_, ?_, ?_⟩ <;> decide

/-- C7 amended: the compiler itself detects a derived-union feature-name
collision: registering a second derived (or override-marked-derived)
navigable end whose name is already in the derived-union table trips the
assertion and aborts processing of that association. -/
theorem processAssociation_collision_aborts (ov : Overrides)
    (enums : List EnumEntity) (cname : Nat → String)
    (stereo : Nat → Option String) (classIds : List Nat)
    (dunions : List (String × DUnion)) (a : Assoc) (pe : PEnd)
    (p2 : Option PEnd)
    (h1 : checkEnd classIds a.e1 = Except.ok ())
    (h2 : checkEnd classIds a.e2 = Except.ok ())
    (hA : simpleEnd stereo a = none)
    (hp1 : parseEnd cname a.e1 = Except.ok (some pe))
    (hp2 : parseEnd cname a.e2 = Except.ok p2)
    (hr : isTruthy pe.redefines = false)
    (hd : (pe.derived || ov.derives (pe.class_name ++ "." ++ pe.name)) = true)
    (hcol : dunions.any (fun kv => kv.1 = pe.name) = true) :
    processAssociation ov enums cname stereo classIds dunions a =
      Except.error (assertCollisionMsg (pe.class_name ++ "." ++ pe.name)) := by
  unfold processAssociation
  rw [h1, h2, hA, hp1, hp2]
  unfold dispatchEnd
  simp only [Option.isSome_none, Bool.false_eq_true, if_false, hr, hd, if_true,
    hcol, reduceCtorEq]

def dA7 : AEnd := ⟨some ("x"), 1, some 0, none, none, none, none, true, [], none⟩

def dB7 : AEnd := ⟨some ("x"), 3, some 2, none, none, none, none, true, [], none⟩

def nn7 : AEnd := ⟨none, 1, none, none, none, none, none, false, [], none⟩

def nn7b : AEnd := ⟨none, 3, none, none, none, none, none, false, [], none⟩

def cn7 : Nat → String := fun n =>
  if n = 0 then ("A") else if n = 1 then ("B") else if n = 2 then ("C") else "D"

def pe7 : PEnd :=
  ⟨"x", "A", "B", 1, "0", "*", false, true, [], none, none, none, none⟩

def g7 : GModel :=
  { classIds := [0, 1, 2, 3]
    cname := cn7
    parents := fun _ => []
    children := fun _ => []
    applied := fun _ => none
    ownedAttrs := fun _ => []
    ownedOps := fun _ => []
    enums := []
    assocs := [⟨dA7, nn7⟩, ⟨dB7, nn7b⟩] }

/-- C7 witness: a concrete second derived navigable end named `x`, in an
unrelated class, aborts with the collision assertion. -/
theorem processAssociation_collision_aborts_witness :
    processAssociation ovE [] cn7 (fun _ => none) ([0, 1, 2, 3])
        ([(("x"), ⟨pe7, []⟩)]) (⟨dA7, nn7⟩) =
      Except.error (assertCollisionMsg (pe7.class_name ++ "." ++ pe7.name)) :=
  processAssociation_collision_aborts ovE [] cn7 (fun _ => none) ([0, 1, 2, 3])
    ([(("x"), ⟨pe7, []⟩)]) (⟨dA7, nn7⟩) pe7 none rfl rfl rfl rfl rfl rfl rfl rfl

/-- C7 counterexample: two associations whose derived navigable ends (in
classes `A` and `C`) both carry the feature name `x`: the first one
processes fine, but the full association stage aborts on the second,
refuting "processing such an input does not abort inside the compiler". -/
theorem assoc_collision_stage_aborts_cex :
    abortsB (processAssociation ovE [] cn7 (fun _ => none) g7.classIds []
        (⟨dA7, nn7⟩)) = false ∧
      abortsB (assocStage ovE g7 (fun _ => none)) = true := by
  refine ⟨?_, ?_⟩ <;> decide

def isOverrideLineB : Line → Bool
  | Line.overrideLine _ => true
  | _ => false

/-- `write_attribute` only ever emits attribute/enumeration assignments
or override text. -/
theorem writeAttribute_kinds (ov : Overrides) (a : Attr)
    (enums : List EnumEntity) (ls : List Line) (lg : List String)
    (h : writeAttribute ov a enums = Except.ok (ls, lg)) :
    ∀ l ∈ ls, (isAttrLineB l || isOverrideLineB l) = true := by
  unfold writeAttribute at h
  cases hty : a.typeValue with
  | none =>
    rw [hty] at h
    exact Except.noConfusion h
  | some ty0 =>
    rw [hty] at h
    by_cases ho : ov.has_override (attrFullName a)
    · simp only [ho, if_true] at h
      cases h
      intro l hl
      rcases List.mem_singleton.mp hl with rfl
      rfl
    · simp only [ho, Bool.false_eq_true, if_false] at h
      by_cases hd : a.isDerived
      · simp only [hd, if_true] at h
        cases h
        intro l hl
        cases hl
      · simp only [hd, Bool.false_eq_true, if_false] at h
        by_cases hk : (strEndsWith (mapType ty0) ("Kind") ||
            strEndsWith (mapType ty0) ("Sort")) = true
        · rw [if_pos hk] at h
          split at h
          · exact Except.noConfusion h
          · split at h
            · exact Except.noConfusion h
            · cases h
              intro l hl
              rcases List.mem_singleton.mp hl with rfl
              unfold writeProperty
              by_cases ho2 : ov.has_override (attrFullName a) <;> simp [ho2, isAttrLineB, isOverrideLineB]
        · rw [if_neg hk] at h
          cases h
          intro l hl
          rcases List.mem_singleton.mp hl with rfl
          unfold writeProperty
          by_cases ho2 : ov.has_override (attrFullName a) <;> simp [ho2, isAttrLineB, isOverrideLineB]

/-- An attribute-ish or override line is never an association line. -/
theorem attrish_not_assoc (l : Line) (h : (isAttrLineB l || isOverrideLineB l) = true) :
    isAssocLineB l = false := by
  cases l with
  | prop f v => cases v <;> simp_all [isAttrLineB, isOverrideLineB, isAssocLineB]
  | _ => rfl

/-- `write_attribute` on a type already rewritten to `str` cannot fail. -/
theorem writeAttribute_str_ok (ov : Overrides) (a : Attr)
    (enums : List EnumEntity) (h : a.typeValue = some ("str")) :
    ∃ ls lg, writeAttribute ov a enums = Except.ok (ls, lg) := by
  unfold writeAttribute
  rw [h]
  by_cases ho : ov.has_override (attrFullName a)
  · exact ⟨[Line.overrideLine (attrFullName a)], [], by simp [ho]⟩
  · by_cases hd : a.isDerived
    · exact ⟨[], [ignoreDerivedMsg a], by simp [ho, hd]⟩
    · have hk : (strEndsWith (mapType ("str")) ("Kind") ||
          strEndsWith (mapType ("str")) ("Sort")) = false := by decide
      exact ⟨[writeProperty ov (attrFullName a)
          (PVal.attribute a.name (mapType ("str")) (attrParams a))], [],
        by simp [ho, hd, hk]⟩

/-- C4 amended: when one end's type is a `SimpleAttribute`-stereotyped
class and that end is navigable, the association is folded: that end is
rewritten as a string-typed attribute owned by the other end's type and
routed through `write_attribute`, both ends are marked written, and no
association descriptor line is emitted (the whole dispatch chain is
skipped for both ends whenever `asAttribute` is set). -/
theorem simple_attribute_fold (ov : Overrides) (enums : List EnumEntity)
    (cname : Nat → String) (stereo : Nat → Option String) (classIds : List Nat)
    (dunions : List (String × DUnion)) (a : Assoc) (pe : PEnd) (p2 : Option PEnd)
    (h1 : checkEnd classIds a.e1 = Except.ok ())
    (h2 : checkEnd classIds a.e2 = Except.ok ())
    (hS1 : stereo a.e1.typeId = some ("SimpleAttribute"))
    (hS2 : ¬ stereo a.e2.typeId = some ("SimpleAttribute"))
    (hp1 : parseEnd cname a.e1 = Except.ok (some pe))
    (hp2 : parseEnd cname a.e2 = Except.ok p2) :
    ∃ ls lg,
      writeAttribute ov
        { class_name := cname a.e2.typeId
          name := pe.name
          typeValue := some ("str")
          defaultValue := pe.defaultValue
          lowerValue := pe.lowerValue
          upperValue := pe.upperValue
          isDerived := pe.derived } enums = Except.ok (ls, lg) ∧
      processAssociation ov enums cname stereo classIds dunions a =
        Except.ok
          { lines := Line.simpleAttrNote (cname a.e2.typeId) pe.name :: ls
            logs := lg
            dunions := dunions
            redefs := []
            written1 := true
            written2 := true
            pends := (pe, true) ::
              (match p2 with | some q => [(q, true)] | none => []) } ∧
      (∀ l ∈ Line.simpleAttrNote (cname a.e2.typeId) pe.name :: ls,
        isAssocLineB l = false) := by
  obtain ⟨ls, lg, hw⟩ := writeAttribute_str_ok ov
    { class_name := cname a.e2.typeId
      name := pe.name
      typeValue := some ("str")
      defaultValue := pe.defaultValue
      lowerValue := pe.lowerValue
      upperValue := pe.upperValue
      isDerived := pe.derived } enums rfl
  have hA : simpleEnd stereo a = some false := by
    unfold simpleEnd
    rw [if_neg hS2, if_pos hS1]
  refine ⟨ls, lg, hw, ?_, ?_⟩
  · unfold processAssociation
    simp only [h1, h2, hA, hp1, hp2]
    unfold dispatchEnd
    simp only [Option.isSome_some, decide_True, if_true, hw, List.append_nil,
      Bool.true_or, Bool.or_true, Bool.or_false, reduceCtorEq, decide_False,
      Bool.false_eq_true, if_false, Option.some.injEq, Bool.false_eq_true]
    cases p2 <;> rfl
  · intro l hl
    rcases List.mem_cons.mp hl with rfl | hl2
    · rfl
    · exact attrish_not_assoc l (writeAttribute_kinds ov _ enums ls lg hw l hl2)

def sB4 : AEnd := ⟨some ("s"), 2, some 0, none, none, none, none, false, [], none⟩

def sA4 : AEnd := ⟨some ("s"), 2, none, none, none, none, none, false, [], none⟩

def oA4 : AEnd := ⟨some ("o"), 0, some 0, none, none, none, none, false, [], none⟩

def cn4 : Nat → String := fun n =>
  if n = 0 then ("X") else if n = 1 then ("Y") else "S"

def st4 : Nat → Option String := fun n =>
  if n = 2 then some ("SimpleAttribute") else none

def pe4 : PEnd :=
  ⟨"s", "X", "S", 2, "0", "*", false, false, [], none, none, none, none⟩

def po4 : PEnd :=
  ⟨"o", "X", "X", 0, "0", "*", false, false, [], none, none, none, none⟩

/-- C4 witness: a concrete navigable end whose type `S` carries the
`SimpleAttribute` stereotype is folded into a string attribute of `X`,
both ends are marked written, and no association line appears. -/
theorem simple_attribute_fold_witness :
    ∃ ls lg,
      writeAttribute ovE
        { class_name := cn4 (Assoc.mk sB4 oA4).e2.typeId
          name := pe4.name
          typeValue := some ("str")
          defaultValue := pe4.defaultValue
          lowerValue := pe4.lowerValue
          upperValue := pe4.upperValue
          isDerived := pe4.derived } [] = Except.ok (ls, lg) ∧
      processAssociation ovE [] cn4 st4 ([0, 1, 2]) [] (Assoc.mk sB4 oA4) =
        Except.ok
          { lines := Line.simpleAttrNote (cn4 (Assoc.mk sB4 oA4).e2.typeId) pe4.name :: ls
            logs := lg
            dunions := []
            redefs := []
            written1 := true
            written2 := true
            pends := (pe4, true) ::
              (match some po4 with | some q => [(q, true)] | none => []) } ∧
      (∀ l ∈ Line.simpleAttrNote (cn4 (Assoc.mk sB4 oA4).e2.typeId) pe4.name :: ls,
        isAssocLineB l = false) :=
  simple_attribute_fold ovE [] cn4 st4 ([0, 1, 2]) [] (Assoc.mk sB4 oA4) pe4
    (some po4) rfl rfl rfl (by decide) rfl rfl

/-- Conjunction the claim asserts about a simple-attribute association:
both ends written and an attribute line emitted. -/
def foldedOK : Except String AProc → Bool
  | Except.ok r => r.written1 && r.written2 && r.lines.any isAttrLineB
  | Except.error _ => false

/-- C4 counterexample: an association whose `SimpleAttribute`-typed end is
not navigable is not folded at all — nothing is emitted and neither end is
marked written (the run does not abort either), refuting the claim for
every such association. -/
theorem simple_attribute_nonnavigable_cex :
    st4 sA4.typeId = some ("SimpleAttribute") ∧
      processAssociation ovE [] cn4 st4 ([0, 1, 2]) [] (Assoc.mk sA4 oA4) =
        Except.ok
          { lines := []
            logs := []
            dunions := []
            redefs := []
            written1 := false
            written2 := false
            pends := [(po4, false)] } ∧
      foldedOK (processAssociation ovE [] cn4 st4 ([0, 1, 2]) [] (Assoc.mk sA4 oA4)) =
        false := by
  refine ⟨rfl, ?_, ?_⟩ <;> decide

/-- The invariant `write_classdef` maintains: no duplicate declarations,
the written flags coincide with the declarations present in the stream,
and every declared class's generalization parents are declared earlier. -/
def goodState (par : Nat → List Nat) (s : CDState) : Prop :=
  s.order.Nodup ∧ (∀ x, x ∈ s.written ↔ x ∈ s.order) ∧
    ∀ c ∈ s.order, ∀ p ∈ par c, [p, c].Sublist s.order

/-- Behaviour of the parent fold inside `write_classdef`, given the
behaviour of `write_classdef` itself at the same fuel. -/
theorem wcdList_spec (par : Nat → List Nat) (rank : Nat → Nat) (fuel R : Nat)
    (IH : ∀ c s, rank c < fuel → goodState par s →
      ∃ s2, writeClassdef par fuel c s = some s2 ∧ goodState par s2 ∧
        s.order <+: s2.order ∧ c ∈ s2.order ∧
        (∀ x ∈ s2.order, x ∈ s.order ∨ rank x ≤ rank c)) :
    ∀ (ps : List Nat) (s : CDState),
      (∀ p ∈ ps, rank p < fuel ∧ rank p < R) → goodState par s →
      ∃ s2, ps.foldlM (fun st p => writeClassdef par fuel p st) s = some s2 ∧
        goodState par s2 ∧ s.order <+: s2.order ∧ (∀ p ∈ ps, p ∈ s2.order) ∧
        (∀ x ∈ s2.order, x ∈ s.order ∨ rank x < R) := by
  intro ps
  induction ps with
  | nil =>
    intro s _ hs
    refine ⟨s, rfl, hs, List.prefix_refl _, ?_, fun x hx => Or.inl hx⟩
    intro p hp
    cases hp
  | cons p ps ih =>
    intro s hps hs
    obtain ⟨s1, heq1, good1, pre1, hmem1, hnew1⟩ :=
      IH p s (hps p (List.mem_cons_self p ps)).1 hs
    obtain ⟨s2, heq2, good2, pre2, hmem2, hnew2⟩ :=
      ih s1 (fun q hq => hps q (List.mem_cons_of_mem p hq)) good1
    refine ⟨s2, ?_, good2, pre1.trans pre2, ?_, ?_⟩
    · rw [List.foldlM_cons, heq1]
      exact heq2
    · intro q hq
      rcases List.mem_cons.mp hq with rfl | hq2
      · exact pre2.subset hmem1
      · exact hmem2 q hq2
    · intro x hx
      rcases hnew2 x hx with hx1 | hlt
      · rcases hnew1 x hx1 with hx0 | hle
        · exact Or.inl hx0
        · exact Or.inr (lt_of_le_of_lt hle (hps p (List.mem_cons_self p ps)).2)
      · exact Or.inr hlt

/-- `write_classdef` with enough fuel for the class's rank succeeds and
maintains the invariant: the class ends up declared, the stream only
grows at the tail, and everything newly declared has rank at most the
class's rank. -/
theorem writeClassdef_spec (par : Nat → List Nat) (rank : Nat → Nat)
    (hrank : ∀ c p, p ∈ par c → rank p < rank c) :
    ∀ (fuel : Nat) (c : Nat) (s : CDState), rank c < fuel → goodState par s →
      ∃ s2, writeClassdef par fuel c s = some s2 ∧ goodState par s2 ∧
        s.order <+: s2.order ∧ c ∈ s2.order ∧
        (∀ x ∈ s2.order, x ∈ s.order ∨ rank x ≤ rank c) := by
  intro fuel
  induction fuel with
  | zero =>
    intro c s hc
    exact absurd hc (Nat.not_lt_zero _)
  | succ n ihn =>
    intro c s hc hs
    by_cases hmem : c ∈ s.written
    · refine ⟨s, ?_, hs, List.prefix_refl _, (hs.2.1 c).mp hmem,
        fun x hx => Or.inl hx⟩
      simp [writeClassdef, hmem]
    · have hp : ∀ p ∈ par c, rank p < n ∧ rank p < rank c := by
        intro p hpp
        have h1 := hrank c p hpp
        exact ⟨lt_of_lt_of_le h1 (Nat.lt_succ_iff.mp hc), h1⟩
      obtain ⟨s1, heq1, good1, pre1, hmemp, hnew⟩ :=
        wcdList_spec par rank n (rank c) ihn (par c) s hp hs
      have hcnot : c ∉ s1.order := by
        intro hcs
        rcases hnew c hcs with hin | hlt
        · exact hmem ((hs.2.1 c).mpr hin)
        · exact absurd hlt (lt_irrefl _)
      refine ⟨⟨c :: s1.written, s1.order ++ [c]⟩, ?_, ⟨?_, ?_, ?_⟩, ?_, ?_, ?_⟩
      · simp only [writeClassdef, hmem, if_false, heq1]
      · rw [← List.concat_eq_append]
        exact good1.1.concat hcnot
      · intro x
        simp only [List.mem_cons, List.mem_append, List.mem_singleton,
          good1.2.1 x]
        tauto
      · intro x hx q hq
        rcases List.mem_append.mp hx with hx1 | hx2
        · exact (good1.2.2 x hx1 q hq).trans (List.sublist_append_left _ _)
        · rcases List.mem_singleton.mp hx2 with rfl
          have hq1 : [q].Sublist s1.order :=
            List.singleton_sublist.mpr (hmemp q hq)
          exact hq1.append (List.Sublist.refl [x])
      · exact pre1.trans (List.prefix_append _ _)
      · exact List.mem_append.mpr (Or.inr (List.mem_singleton.mpr rfl))
      · intro x hx
        rcases List.mem_append.mp hx with hx1 | hx2
        · rcases hnew x hx1 with hx0 | hlt
          · exact Or.inl hx0
          · exact Or.inr (le_of_lt hlt)
        · rcases List.mem_singleton.mp hx2 with rfl
          exact Or.inr (le_refl _)

/-- C1: on an acyclic generalization graph (witnessed by a rank function
decreasing along parent edges and bounded by the fuel), the class
definition loop of `generate` succeeds, writes each emission-list class
exactly once, never duplicates a declaration, and puts, for every
generalization edge of a declared class, the parent's declaration
strictly before the child's. -/
theorem genClassdefs_parent_order (par : Nat → List Nat) (rank : Nat → Nat)
    (B : Nat) (L : List Nat) (hrank : ∀ c p, p ∈ par c → rank p < rank c)
    (hL : ∀ c ∈ L, rank c < B) :
    ∃ s, genClassdefs par B L = some s ∧ s.order.Nodup ∧
      (∀ c ∈ L, s.order.count c = 1) ∧
      (∀ c ∈ s.order, ∀ p ∈ par c, [p, c].Sublist s.order) := by
  have hinit : goodState par ⟨[], []⟩ := by
    refine ⟨List.nodup_nil, fun x => Iff.rfl, ?_⟩
    intro c hc
    cases hc
  obtain ⟨s, heq, good, _, hmem, _⟩ :=
    wcdList_spec par rank B B (writeClassdef_spec par rank hrank B) L ⟨[], []⟩
      (fun p hp => ⟨hL p hp, hL p hp⟩) hinit
  refine ⟨s, heq, good.1, ?_, good.2.2⟩
  intro c hc
  exact List.count_eq_one_of_mem good.1 (hmem c hc)

def par1 : Nat → List Nat := fun c => if c = 1 then [0] else []

def rank1 : Nat → Nat := fun c => if c = 1 then 1 else 0

/-- C1 witness: the two-class hierarchy `class 0 ⟸ class 1` written from
the emission list `[1, 0]` — the child is requested first, yet the
parent's declaration precedes it and each class is declared once. -/
theorem genClassdefs_parent_order_witness :
    ∃ s, genClassdefs par1 2 ([1, 0]) = some s ∧ s.order.Nodup ∧
      (∀ c ∈ ([1, 0] : List Nat), s.order.count c = 1) ∧
      (∀ c ∈ s.order, ∀ p ∈ par1 c, [p, c].Sublist s.order) :=
  genClassdefs_parent_order par1 rank1 2 ([1, 0])
    (by
      intro c p hp
      by_cases hc : c = 1
      · subst hc
        have hp0 : p = 0 := by simpa [par1] using hp
        subst hp0
        decide
      · simp only [par1, if_neg hc] at hp
        cases hp)
    (by
      intro c hc
      rcases List.mem_cons.mp hc with rfl | hc2
      · decide
      · rcases List.mem_singleton.mp hc2 with rfl
        decide)

/-- C6 witness: with a single matching enumeration entity the descriptor
is emitted from its literal tuple and first literal; with no matching
entity the run aborts with the `IndexError`. -/
theorem writeAttribute_enum_resolution_witness :
    writeAttribute ovE aC6 ([⟨"ColorKind", ["red", "green"]⟩]) =
        Except.ok ([Line.prop (attrFullName aC6)
          (PVal.enumeration aC6.name (["red", "green"]) (("red")))], []) ∧
      writeAttribute ovE aC6 [] = Except.error indexErrorMsg :=
  ⟨(writeAttribute_enum_resolution ovE aC6 ([⟨"ColorKind", ["red", "green"]⟩])
      ("ColorKind") rfl (by decide) rfl rfl).2 ⟨"ColorKind", ["red", "green"]⟩ []
      (by decide) ("red") (by decide),
    (writeAttribute_enum_resolution ovE aC6 [] ("ColorKind") rfl (by decide)
      rfl rfl).1 rfl⟩

def isStereoNoteB : Line → Bool
  | Line.stereoNote _ _ _ => true
  | _ => false

def isSimpleNoteB : Line → Bool
  | Line.simpleAttrNote _ _ => true
  | _ => false

def isClassdefLineB : Line → Bool
  | Line.classdef _ _ => true
  | _ => false

/-- The kinds of lines the association stage may emit: simple-attribute
comments, attribute lines from folds, association descriptors, and
override text. -/
def isAssocStageLineB (l : Line) : Bool :=
  isAttrLineB l || isOverrideLineB l || isAssocLineB l || isSimpleNoteB l

theorem foldl_preserve {α β : Type} (f : β → α → β) (P : β → Prop)
    (hf : ∀ b a, P b → P (f b a)) :
    ∀ (l : List α) (b : β), P b → P (l.foldl f b) := by
  intro l
  induction l with
  | nil => intro b hb; exact hb
  | cons a t ih => intro b hb; exact ih (f b a) (hf b a hb)

/-- The stereotype stage emits only stereotype comments. -/
theorem stereoStage_kinds (g : GModel) (fuel : Nat) :
    ∀ l ∈ (stereoStage g fuel).1, isStereoNoteB l = true := by
  unfold stereoStage
  refine foldl_preserve _ (fun acc => ∀ l ∈ acc.1, isStereoNoteB l = true)
    ?_ g.classIds (([], fun _ => none) : List Line × (Nat → Option String)) ?_
  · intro b c hb
    cases happ : g.applied c with
    | none => simpa [happ] using hb
    | some s =>
      simp only [happ]
      intro l hl
      rcases List.mem_append.mp hl with hold | hnew
      · exact hb l hold
      · rcases List.mem_cons.mp hnew with rfl | hmap
        · rfl
        · obtain ⟨v, _, rfl⟩ := List.mem_map.mp hmap
          rfl
  · intro l hl
    cases hl

/-- The class-definition stage emits only class declarations and
class-level override text. -/
theorem classdefStage_kinds (ov : Overrides) (g : GModel)
    (stereo : Nat → Option String) (fuel : Nat) (cd : List Line)
    (ignored order : List Nat)
    (h : classdefStage ov g stereo fuel = some (cd, ignored, order)) :
    ∀ l ∈ cd, (isClassdefLineB l || isOverrideLineB l) = true := by
  unfold classdefStage at h
  cases hg : genClassdefs g.parents fuel
      (g.classIds.filter (fun c => ¬ stereo c = some ("SimpleAttribute"))) with
  | none =>
    rw [hg] at h
    exact Option.noConfusion h
  | some s =>
    rw [hg] at h
    cases h
    intro l hl
    obtain ⟨c, _, rfl⟩ := List.mem_map.mp hl
    unfold classdefLine
    by_cases ho : ov.has_override (g.cname c) <;>
      simp [ho, isClassdefLineB, isOverrideLineB]

/-- `attrStep` only adds attribute-ish or override lines. -/
theorem attrStep_kinds (ov : Overrides) (enums : List EnumEntity) (cls : String)
    (acc : List Line × List String × List (String × Attr)) (o : OwnedAttr)
    (res : List Line × List String × List (String × Attr))
    (hacc : ∀ l ∈ acc.1, (isAttrLineB l || isOverrideLineB l) = true)
    (h : attrStep ov enums cls acc o = Except.ok res) :
    ∀ l ∈ res.1, (isAttrLineB l || isOverrideLineB l) = true := by
  unfold attrStep at h
  by_cases ha : o.isAssociation
  · simp only [ha, if_true] at h
    cases h
    exact hacc
  · simp only [ha, Bool.false_eq_true, if_false] at h
    by_cases hder : ov.derives (attrFullName (o.toAttr cls)) = true
    · simp only [hder, if_true] at h
      cases h
      exact hacc
    · simp only [Bool.not_eq_true] at hder
      simp only [hder, Bool.false_eq_true, if_false] at h
      cases hw : writeAttribute ov (o.toAttr cls) enums with
      | error m =>
        rw [hw] at h
        exact Except.noConfusion h
      | ok p =>
        rw [hw] at h
        cases p with
        | mk ls lg =>
          cases h
          intro l hl
          rcases List.mem_append.mp hl with h1 | h2
          · exact hacc l h1
          · exact writeAttribute_kinds ov (o.toAttr cls) enums ls lg hw l h2

/-- The attribute stage emits only attribute-ish or override lines. -/
theorem attrStage_kinds (ov : Overrides) (g : GModel) (ignored : List Nat)
    (res : List Line × List String × List (String × Attr))
    (h : attrStage ov g ignored = Except.ok res) :
    ∀ l ∈ res.1, (isAttrLineB l || isOverrideLineB l) = true := by
  refine foldlM_preserve _ (fun x => ∀ l ∈ x.1, (isAttrLineB l || isOverrideLineB l) = true)
    ?_ _ _ _ (by intro l hl; cases hl) h
  intro b c r hb hstep
  exact foldlM_preserve _ _ (fun b2 o r2 hb2 h2 =>
    attrStep_kinds ov g.enums (g.cname c) b2 o r2 hb2 h2) _ b r hb hstep

/-- The deferred derived-attribute pass emits only attribute-ish or
override lines. -/
theorem derivedAttrStage_kinds (ov : Overrides) (deferred : List (String × Attr))
    (res : List Line × List String)
    (h : derivedAttrStage ov deferred = Except.ok res) :
    ∀ l ∈ res.1, (isAttrLineB l || isOverrideLineB l) = true := by
  refine foldlM_preserve _ (fun x => ∀ l ∈ x.1, (isAttrLineB l || isOverrideLineB l) = true)
    ?_ _ _ _ (by intro l hl; cases hl) h
  intro b kv r hb hstep
  unfold derivedAttrStep at hstep
  cases hw : writeAttribute ov kv.2 [] with
  | error m =>
    rw [hw] at hstep
    exact Except.noConfusion hstep
  | ok p =>
    rw [hw] at hstep
    cases p with
    | mk ls lg =>
      cases hstep
      intro l hl
      rcases List.mem_append.mp hl with h1 | h2
      · exact hb l h1
      · exact writeAttribute_kinds ov kv.2 [] ls lg hw l h2

/-- One dispatch iteration only emits association-stage line kinds. -/
theorem dispatchEnd_kinds (ov : Overrides) (enums : List EnumEntity)
    (cname : Nat → String) (hasAs isAs : Bool) (pSelf pOther : Option PEnd)
    (otherTypeId : Nat) (selfWritten : Bool) (dunions : List (String × DUnion))
    (r : DispRes)
    (h : dispatchEnd ov enums cname hasAs isAs pSelf pOther otherTypeId
      selfWritten dunions = Except.ok r) :
    ∀ l ∈ r.lines, isAssocStageLineB l = true := by
  unfold dispatchEnd at h
  by_cases hA : hasAs
  · simp only [hA, if_true] at h
    by_cases hI : isAs
    · simp only [hI, if_true] at h
      cases pSelf with
      | none =>
        cases h
        intro l hl
        cases hl
      | some pe =>
        simp only [] at h
        cases hw : writeAttribute ov
            { class_name := cname otherTypeId
              name := pe.name
              typeValue := some ("str")
              defaultValue := pe.defaultValue
              lowerValue := pe.lowerValue
              upperValue := pe.upperValue
              isDerived := pe.derived } enums with
        | error m =>
          rw [hw] at h
          exact Except.noConfusion h
        | ok p =>
          rw [hw] at h
          cases p with
          | mk ls lg =>
            cases h
            intro l hl
            rcases List.mem_cons.mp hl with rfl | h2
            · rfl
            · have hk := writeAttribute_kinds ov _ enums ls lg hw l h2
              unfold isAssocStageLineB
              rcases Bool.or_eq_true_iff.mp hk with h3 | h3 <;> simp [h3]
    · simp only [hI, Bool.false_eq_true, if_false] at h
      cases h
      intro l hl
      cases hl
  · simp only [hA, Bool.false_eq_true, if_false] at h
    cases pSelf with
    | none =>
      cases h
      intro l hl
      cases hl
    | some pe =>
      by_cases hr : isTruthy pe.redefines
      · simp only [hr, if_true] at h
        cases h
        intro l hl
        cases hl
      · simp only [hr, Bool.false_eq_true, if_false] at h
        by_cases hd : (pe.derived || ov.derives (pe.class_name ++ "." ++ pe.name)) = true
        · simp only [hd, if_true] at h
          by_cases hcol : dunions.any (fun kv => kv.1 = pe.name)
          · simp only [hcol, if_true] at h
            exact Except.noConfusion h
          · simp only [hcol, Bool.false_eq_true, if_false] at h
            cases h
            intro l hl
            cases hl
        · simp only [Bool.not_eq_true] at hd
          simp only [hd, Bool.false_eq_true, if_false] at h
          by_cases hsw : selfWritten
          · simp only [hsw, if_true] at h
            cases h
            intro l hl
            cases hl
          · simp only [hsw, Bool.false_eq_true, if_false] at h
            cases h
            intro l hl
            rcases List.mem_singleton.mp hl with rfl
            unfold writeAssociation writeProperty
            by_cases ho : ov.has_override (pe.class_name ++ "." ++ pe.name) <;>
              simp [ho, isAssocStageLineB, isAssocLineB, isOverrideLineB]

/-- Processing one association only emits association-stage line kinds. -/
theorem processAssociation_kinds (ov : Overrides) (enums : List EnumEntity)
    (cname : Nat → String) (stereo : Nat → Option String) (classIds : List Nat)
    (dunions : List (String × DUnion)) (a : Assoc) (r : AProc)
    (h : processAssociation ov enums cname stereo classIds dunions a =
      Except.ok r) :
    ∀ l ∈ r.lines, isAssocStageLineB l = true := by
  unfold processAssociation at h
  cases h1 : checkEnd classIds a.e1 with
  | error m =>
    rw [h1] at h
    exact Except.noConfusion h
  | ok u1 =>
    rw [h1] at h
    cases h2 : checkEnd classIds a.e2 with
    | error m =>
      rw [h2] at h
      exact Except.noConfusion h
    | ok u2 =>
      rw [h2] at h
      cases hp1 : parseEnd cname a.e1 with
      | error m =>
        rw [hp1] at h
        exact Except.noConfusion h
      | ok p1 =>
        rw [hp1] at h
        cases hp2 : parseEnd cname a.e2 with
        | error m =>
          rw [hp2] at h
          exact Except.noConfusion h
        | ok p2 =>
          rw [hp2] at h
          simp only [] at h
          cases hd1 : dispatchEnd ov enums cname (simpleEnd stereo a).isSome
              (decide (simpleEnd stereo a = some false)) p1 p2 a.e2.typeId
              false dunions with
          | error m =>
            rw [hd1] at h
            exact Except.noConfusion h
          | ok r1 =>
            rw [hd1] at h
            simp only [] at h
            cases hd2 : dispatchEnd ov enums cname (simpleEnd stereo a).isSome
                (decide (simpleEnd stereo a = some true)) p2 p1 a.e1.typeId
                r1.otherWritten r1.dunions with
            | error m =>
              rw [hd2] at h
              exact Except.noConfusion h
            | ok r2 =>
              rw [hd2] at h
              cases h
              intro l hl
              rcases List.mem_append.mp hl with hl1 | hl2
              · exact dispatchEnd_kinds ov enums cname _ _ p1 p2 _ _ _ r1 hd1 l hl1
              · exact dispatchEnd_kinds ov enums cname _ _ p2 p1 _ _ _ r2 hd2 l hl2

/-- The association stage emits only association-stage line kinds. -/
theorem assocStage_kinds (ov : Overrides) (g : GModel)
    (stereo : Nat → Option String)
    (res : List Line × List String × List (String × DUnion) ×
      List PEnd × List (PEnd × Bool))
    (h : assocStage ov g stereo = Except.ok res) :
    ∀ l ∈ res.1, isAssocStageLineB l = true := by
  refine foldlM_preserve _ (fun x => ∀ l ∈ x.1, isAssocStageLineB l = true)
    ?_ _ _ _ (by intro l hl; cases hl) h
  intro b a r hb hstep
  unfold assocStep at hstep
  cases hpr : processAssociation ov g.enums g.cname stereo g.classIds b.2.2.1 a with
  | error m =>
    rw [hpr] at hstep
    exact Except.noConfusion hstep
  | ok q =>
    rw [hpr] at hstep
    cases hstep
    intro l hl
    rcases List.mem_append.mp hl with h1 | h2
    · exact hb l h1
    · exact processAssociation_kinds ov g.enums g.cname stereo g.classIds
        b.2.2.1 a q hpr l h2
/-- `write_derivedunion` only emits derived-union descriptors or override
text. -/
theorem writeDU_kinds (ov : Overrides) (dtab : List (String × DUnion)) :
    ∀ (fuel : Nat) (d : DUnion) (w : List String) (ls : List Line)
      (lg wr : List String),
      writeDU ov dtab fuel d w = Except.ok (ls, lg, wr) →
      ∀ l ∈ ls, (isDULineB l || isOverrideLineB l) = true := by
  intro fuel
  induction fuel with
  | zero =>
    intro d w ls lg wr h
    exact Except.noConfusion h
  | succ n ih =>
    intro d w ls lg wr h
    unfold writeDU at h
    split at h
    · exact Except.noConfusion h
    · rename_i ls0 lg0 wr0 heq
      have hfold : ∀ l ∈ ls0, (isDULineB l || isOverrideLineB l) = true := by
        refine foldlM_preserve _
          (fun acc => ∀ l ∈ acc.1, (isDULineB l || isOverrideLineB l) = true)
          ?_ d.union ([], [], w) (ls0, lg0, wr0) (by intro l hl; cases hl) heq
        intro b m r2 hb hstep
        by_cases hcond : (m.1.derived && !(m.2 || b.2.2.contains m.1.name)) = true
        · simp only [hcond, if_true] at hstep
          cases hfind : dtab.find? (fun kv => kv.1 = m.1.name) with
          | none =>
            rw [hfind] at hstep
            exact Except.noConfusion hstep
          | some kv =>
            rw [hfind] at hstep
            simp only [] at hstep
            cases hrec : writeDU ov dtab n kv.2 b.2.2 with
            | error e =>
              rw [hrec] at hstep
              exact Except.noConfusion hstep
            | ok p =>
              rw [hrec] at hstep
              cases p with
              | mk ls2 p2 =>
                cases p2 with
                | mk lg2 wr2 =>
                  cases hstep
                  intro l hl
                  rcases List.mem_append.mp hl with h1 | h2
                  · exact hb l h1
                  · exact ih kv.2 b.2.2 ls2 lg2 wr2 hrec l h2
        · simp only [Bool.not_eq_true] at hcond
          simp only [hcond, Bool.false_eq_true, if_false] at hstep
          cases hstep
          exact hb
      simp only [] at h
      by_cases hemp : (d.union.map
          (fun m => m.1.class_name ++ "." ++ m.1.name)).isEmpty
      · simp only [hemp, if_true] at h
        cases h
        intro l hl
        rcases List.mem_append.mp hl with h1 | h2
        · exact hfold l h1
        · rcases List.mem_singleton.mp h2 with rfl
          unfold writeProperty
          by_cases ho : ov.has_override (duFullName d) <;>
            simp [ho, isDULineB, isOverrideLineB]
      · simp only [hemp, Bool.false_eq_true, if_false] at h
        cases h
        intro l hl
        rcases List.mem_append.mp hl with h1 | h2
        · exact hfold l h1
        · rcases List.mem_singleton.mp h2 with rfl
          unfold writeProperty
          by_cases ho : ov.has_override (duFullName d) <;>
            simp [ho, isDULineB, isOverrideLineB]

/-- The derived-union pass emits only derived-union descriptors or
override text. -/
theorem duStage_kinds (ov : Overrides) (dunions : List (String × DUnion))
    (fuel : Nat) (res : List Line × List String)
    (h : duStage ov dunions fuel = Except.ok res) :
    ∀ l ∈ res.1, (isDULineB l || isOverrideLineB l) = true := by
  unfold duStage at h
  cases hf : dunions.foldlM (duStep ov dunions fuel) ([], [], []) with
  | error m =>
    rw [hf] at h
    exact Except.noConfusion h
  | ok p =>
    rw [hf] at h
    cases p with
    | mk ls p2 =>
      cases p2 with
      | mk lg wr =>
        cases h
        have := foldlM_preserve _
          (fun acc => ∀ l ∈ acc.1, (isDULineB l || isOverrideLineB l) = true)
          ?_ dunions ([], [], []) (ls, lg, wr) (by intro l hl; cases hl) hf
        · exact this
        · intro b kv r hb hstep
          unfold duStep at hstep
          cases hw : writeDU ov dunions fuel kv.2 b.2.2 with
          | error m =>
            rw [hw] at hstep
            exact Except.noConfusion hstep
          | ok q =>
            rw [hw] at hstep
            cases q with
            | mk ls2 q2 =>
              cases q2 with
              | mk lg2 wr2 =>
                cases hstep
                intro l hl
                rcases List.mem_append.mp hl with h1 | h2
                · exact hb l h1
                · exact writeDU_kinds ov dunions fuel kv.2 b.2.2 ls2 lg2 wr2 hw l h2

/-- The redefine pass emits only redefine descriptors or override text. -/
theorem redefStage_kinds (ov : Overrides) (redefs : List PEnd) :
    ∀ l ∈ (redefStage ov redefs).1, (isRedefLineB l || isOverrideLineB l) = true := by
  unfold redefStage
  refine foldl_preserve _
    (fun acc => ∀ l ∈ acc.1, (isRedefLineB l || isOverrideLineB l) = true)
    ?_ redefs (([], []) : List Line × List String) (by intro l hl; cases hl)
  intro b r hb l hl
  rcases List.mem_append.mp hl with h1 | h2
  · exact hb l h1
  · rcases List.mem_singleton.mp h2 with rfl
    unfold writeProperty
    by_cases ho : ov.has_override (r.class_name ++ "." ++ r.name) <;>
      simp [ho, isRedefLineB, isOverrideLineB]

/-- The operation pass emits only override text. -/
theorem opStage_kinds (ov : Overrides) (g : GModel) (ignored : List Nat) :
    ∀ l ∈ (opStage ov g ignored).1, isOverrideLineB l = true := by
  unfold opStage
  refine foldl_preserve _ (fun acc => ∀ l ∈ acc.1, isOverrideLineB l = true)
    ?_ _ (([], []) : List Line × List String) (by intro l hl; cases hl)
  intro b c hb
  refine foldl_preserve _ (fun acc => ∀ l ∈ acc.1, isOverrideLineB l = true)
    ?_ _ b hb
  intro b2 onm hb2 l hl
  by_cases ho : ov.has_override (g.cname c ++ "." ++ onm)
  · simp only [ho, if_true] at hl
    rcases List.mem_append.mp hl with h1 | h2
    · exact hb2 l h1
    · rcases List.mem_singleton.mp h2 with rfl
      rfl
  · simp only [ho, Bool.false_eq_true, if_false] at hl
    exact hb2 l hl

/-- C5 amended: a successful run produces the output stream in the fixed
deterministic stage order — header, stereotype comments, class
definitions, the attribute stage, the association stage, the deferred
derived-attribute pass, derived unions, redefines, operation overrides —
where the association stage itself may mix attribute lines
(simple-attribute folds) with association descriptors, and the deferred
pass emits attribute lines after the association stage; hence attribute
lines do not all precede association lines. -/
theorem generateModel_stage_order (ov : Overrides) (g : GModel) (fuel : Nat)
    (out : List Line) (logs : List String)
    (h : generateModel ov g fuel = Except.ok (out, logs)) :
    ∃ st cd at0 as0 da du rd op,
      out = Line.header :: (st ++ cd ++ at0 ++ as0 ++ da ++ du ++ rd ++ op) ∧
      (∀ l ∈ st, isStereoNoteB l = true) ∧
      (∀ l ∈ cd, (isClassdefLineB l || isOverrideLineB l) = true) ∧
      (∀ l ∈ at0, (isAttrLineB l || isOverrideLineB l) = true) ∧
      (∀ l ∈ as0, isAssocStageLineB l = true) ∧
      (∀ l ∈ da, (isAttrLineB l || isOverrideLineB l) = true) ∧
      (∀ l ∈ du, (isDULineB l || isOverrideLineB l) = true) ∧
      (∀ l ∈ rd, (isRedefLineB l || isOverrideLineB l) = true) ∧
      (∀ l ∈ op, isOverrideLineB l = true) := by
  unfold generateModel at h
  simp only [] at h
  cases hcd : classdefStage ov g (stereoStage g fuel).2 fuel with
  | none =>
    rw [hcd] at h
    exact Except.noConfusion h
  | some t =>
    rw [hcd] at h
    obtain ⟨cd, ignored, ord⟩ := t
    simp only [] at h
    cases hat : attrStage ov g ignored with
    | error m =>
      rw [hat] at h
      exact Except.noConfusion h
    | ok ta =>
      rw [hat] at h
      obtain ⟨aLines, aLogs, deferred⟩ := ta
      simp only [] at h
      cases has : assocStage ov g (stereoStage g fuel).2 with
      | error m =>
        rw [has] at h
        exact Except.noConfusion h
      | ok ts =>
        rw [has] at h
        obtain ⟨asLines, asLogs, duns, redefs, pends⟩ := ts
        simp only [] at h
        cases hda : derivedAttrStage ov deferred with
        | error m =>
          rw [hda] at h
          exact Except.noConfusion h
        | ok td =>
          rw [hda] at h
          obtain ⟨daLines, daLogs⟩ := td
          simp only [] at h
          cases hdu : duStage ov
              (linkStage (stereoStage g fuel).2 duns pends).1 fuel with
          | error m =>
            rw [hdu] at h
            exact Except.noConfusion h
          | ok tu =>
            rw [hdu] at h
            obtain ⟨duLines, duLogs⟩ := tu
            simp only [] at h
            have h2 := Except.ok.inj h
            have hout : out = Line.header :: ((stereoStage g fuel).1 ++ cd ++
                aLines ++ asLines ++ daLines ++ duLines ++
                (redefStage ov redefs).1 ++ (opStage ov g ignored).1) := by
              have := congrArg Prod.fst h2
              simp only [] at this
              rw [← this]
              simp [List.append_assoc]
            refine ⟨(stereoStage g fuel).1, cd, aLines, asLines, daLines,
              duLines, (redefStage ov redefs).1, (opStage ov g ignored).1,
              hout, stereoStage_kinds g fuel, ?_, ?_, ?_, ?_, ?_,
              redefStage_kinds ov redefs, opStage_kinds ov g ignored⟩
            · exact classdefStage_kinds ov g (stereoStage g fuel).2 fuel cd
                ignored ord hcd
            · exact attrStage_kinds ov g ignored (aLines, aLogs, deferred) hat
            · exact assocStage_kinds ov g (stereoStage g fuel).2
                (asLines, asLogs, duns, redefs, pends) has
            · exact derivedAttrStage_kinds ov deferred (daLines, daLogs) hda
            · exact duStage_kinds ov
                (linkStage (stereoStage g fuel).2 duns pends).1 fuel
                (duLines, duLogs) hdu

/-- C5 witness: on the one-class model with a single skipped derived
attribute the run succeeds and its output decomposes into the stage
segments. -/
theorem generateModel_stage_order_witness :
    ∃ st cd at0 as0 da du rd op,
      ([Line.header, Line.classdef ("C") []] : List Line) =
        Line.header :: (st ++ cd ++ at0 ++ as0 ++ da ++ du ++ rd ++ op) ∧
      (∀ l ∈ st, isStereoNoteB l = true) ∧
      (∀ l ∈ cd, (isClassdefLineB l || isOverrideLineB l) = true) ∧
      (∀ l ∈ at0, (isAttrLineB l || isOverrideLineB l) = true) ∧
      (∀ l ∈ as0, isAssocStageLineB l = true) ∧
      (∀ l ∈ da, (isAttrLineB l || isOverrideLineB l) = true) ∧
      (∀ l ∈ du, (isDULineB l || isOverrideLineB l) = true) ∧
      (∀ l ∈ rd, (isRedefLineB l || isOverrideLineB l) = true) ∧
      (∀ l ∈ op, isOverrideLineB l = true) :=
  generateModel_stage_order ovE g2 1 ([Line.header, Line.classdef ("C") []])
    ([ignoreDerivedMsg (oa2.toAttr ("C"))]) (by decide)

def ya5 : AEnd := ⟨some ("y"), 1, some 0, none, none, none, none, false, [], none⟩

def yb5 : AEnd := ⟨none, 0, none, none, none, none, none, false, [], none⟩

def sa5 : AEnd := ⟨some ("s"), 2, some 0, none, none, none, none, false, [], none⟩

def sb5 : AEnd := ⟨none, 0, none, none, none, none, none, false, [], none⟩

def g5 : GModel :=
  { classIds := [0, 1, 2]
    cname := fun n => if n = 0 then ("X") else if n = 1 then ("Y") else "S"
    parents := fun _ => []
    children := fun _ => []
    applied := fun n => if n = 2 then some ("SimpleAttribute") else none
    ownedAttrs := fun _ => []
    ownedOps := fun _ => []
    enums := []
    assocs := [⟨ya5, yb5⟩, ⟨sa5, sb5⟩] }

def genLines (x : Except String (List Line × List String)) : List Line :=
  match x with
  | Except.ok r => r.1
  | Except.error _ => []

/-- C5 counterexample: a normal association followed by a
simple-attribute association makes `generate` emit the attribute line
`X.s` after the association line `X.y` in the same run, refuting "every
emitted attribute line precedes every emitted association line". -/
theorem generateModel_attr_after_assoc_cex :
    abortsB (generateModel ovE g5 5) = false ∧
      genLines (generateModel ovE g5 5) = [Line.header,
        Line.stereoNote ("S") ("SimpleAttribute") false,
        Line.classdef ("X") [],
        Line.classdef ("Y") [],
        Line.prop ("X.y") (PVal.association ("y") ("Y") none none false none),
        Line.simpleAttrNote ("X") ("s"),
        Line.prop ("X.s") (PVal.attribute ("s") ("str") [])] ∧
      isAssocLineB ((genLines (generateModel ovE g5 5)).getD 4 Line.header) = true ∧
      isAttrLineB ((genLines (generateModel ovE g5 5)).getD 6 Line.header) = true := by
  refine ⟨?_, ?_, ?_, ?_⟩ <;> decide
